import Mathlib

/-!
Shallow embedding of the class-D 1-bit quantizer / dequantizer pipeline of
`classd_simu/quantizer.py` and `classd_simu/delta_sigma_quantizer.py`.

Real-valued samples are modelled as rationals (`ℚ`): every arithmetic
operation the code performs (ring operations, division by constants,
comparisons) is exact on `ℚ`, so the embedded functions follow the source
control flow exactly on rational inputs.  Python code that can raise an
exception is modelled with `Option` (`none` = the exception).
-/

namespace ClassD

/-- OVERSAMPLE = 32, the fixed oversampling factor of both source files. -/
def OVERSAMPLE : Nat := 32

/-- bit15 = 1 << 15 = 32768, the full-scale pulse magnitude. -/
def bit15 : ℚ := 32768

/-! ## First-order modulator (`quantizer.py`, `quantize`) -/

/-- Body of the inner loop of `quantize`:
`inp = extrapolated_v + error; out = bit15 if inp >= 0 else -bit15;
error = inp - out`.  Returns the appended pulse and the new error. -/
def qstep (x error : ℚ) : ℚ × ℚ :=
  let inp := x + error
  let out := if inp ≥ 0 then bit15 else -bit15
  (out, inp - out)

/-- The inner `for _ in range(_OVERSAMPLE)` loop of `quantize`: iterate
`qstep` n times on the same extrapolated sample x, returning the emitted
pulses (in order) and the final error. -/
def qblock : Nat → ℚ → ℚ → List ℚ × ℚ
  | 0, _, error => ([], error)
  | n + 1, x, error =>
    let s := qstep x error
    let rest := qblock n x s.2
    (s.1 :: rest.1, rest.2)

/-- The outer `for i in range(len(signal) - 1)` loop of `quantize`: for each
consecutive pair `(signal[i], signal[i+1])` compute
`extrapolated_v = 3 * signal[i] - 2 * signal[i + 1]` and run the inner loop
OVERSAMPLE times, threading the error. -/
def qmain : List ℚ → ℚ → List ℚ
  | [], _ => []
  | [_], _ => []
  | a :: b :: rest, error =>
    let p := qblock OVERSAMPLE (3 * a - 2 * b) error
    p.1 ++ qmain (b :: rest) p.2

/-- `quantize(signal)` of `quantizer.py`.  After the main loop it reads
`signal[len(signal) - 1]`, which raises `IndexError` on an empty signal
(modelled as `none`), and appends OVERSAMPLE copies of the corresponding
pulse.  The error accumulator starts at 0 and is not consulted for the
final block. -/
def quantize (signal : List ℚ) : Option (List ℚ) :=
  match signal.getLast? with
  | none => none
  | some inp =>
    let out := if inp ≥ 0 then bit15 else -bit15
    some (qmain signal 0 ++ List.replicate OVERSAMPLE out)

/-! ## Second-order modulator (`delta_sigma_quantizer.py`, `quantize_delta_sigma`) -/

/-- Value of `numpy.interp` at integer index i for sample points
`xp = [0, 32, 64, ...]` with values `sig`: linear interpolation between the
two bracketing sample points, clamped to the last value past the final
sample point. -/
def interpOvs (sig : List ℚ) (i : Nat) : ℚ :=
  let j := i / OVERSAMPLE
  let r := i % OVERSAMPLE
  match sig.get? j, sig.get? (j + 1) with
  | some a, some b => a + (r : ℚ) * (b - a) / (OVERSAMPLE : ℚ)
  | some a, none => a
  | none, _ => 0

/-- The upsampled signal `signal_ovs = numpy.interp(x, xp, sig)` of
`quantize_delta_sigma`, of length `len(sig) * _OVERSAMPLE`. -/
def signal_ovs (sig : List ℚ) : List ℚ :=
  (List.range (OVERSAMPLE * sig.length)).map (interpOvs sig)

/-- State of the second-order modulator: the two accumulators. -/
structure DSState where
  integrator : ℚ
  integrator2 : ℚ
deriving DecidableEq

/-- Body of the loop of `quantize_delta_sigma`:
`integrator += x; integrator2_prev = integrator2;
delta = d_minus_plus[integrator2_prev > 0]; result[i] = delta;
integrator -= delta; integrator2 -= delta; integrator2 += integrator`.
Indexing the pair `d_minus_plus = (-1 << 15, 1 << 15)` with the boolean
gives `-bit15` for `False` (so a tie at 0 yields `-bit15`). -/
def dsStep (st : DSState) (x : ℚ) : ℚ × DSState :=
  let integrator := st.integrator + x
  let integrator2_prev := st.integrator2
  let delta := if integrator2_prev > 0 then bit15 else -bit15
  let integrator := integrator - delta
  let integrator2 := st.integrator2 - delta + integrator
  (delta, ⟨integrator, integrator2⟩)

/-- The `for i in range(len(signal_ovs))` loop of `quantize_delta_sigma`. -/
def dsRun : List ℚ → DSState → List ℚ
  | [], _ => []
  | x :: xs, st =>
    let s := dsStep st x
    s.1 :: dsRun xs s.2

/-- `quantize_delta_sigma(sig)` of `delta_sigma_quantizer.py`.  On an empty
signal `numpy.interp` raises `ValueError` ("array of sample points is
empty") because `xp` is empty, modelled as `none`. -/
def quantize_delta_sigma (sig : List ℚ) : Option (List ℚ) :=
  if sig.isEmpty then none
  else some (dsRun (signal_ovs sig) ⟨0, 0⟩)

/-! ## Demodulators (`dequantize` and `dequantize_delta_sigma`) -/

/-- State of the demodulator: the three leaky integrators and the running
period sum. -/
structure DeqState where
  integrator : ℚ
  integrator2 : ℚ
  integrator3 : ℚ
  period : ℚ
deriving DecidableEq

/-- Body of the demodulation loop, common to both source files (with
`kc = 1 - k` and so on written out):
`integrator = integrator * (1 - k) + k * v;
integrator2 = integrator2 * (1 - k) + k * integrator;
integrator3 = integrator3 * (1 - k) + k * integrator2;
period += integrator3`. -/
def deqStep (k : ℚ) (st : DeqState) (v : ℚ) : DeqState :=
  let integrator := st.integrator * (1 - k) + k * v
  let integrator2 := st.integrator2 * (1 - k) + k * integrator
  let integrator3 := st.integrator3 * (1 - k) + k * integrator2
  ⟨integrator, integrator2, integrator3, st.period + integrator3⟩

/-- The `for i, v in enumerate(signal)` loop of `dequantize`
(`quantizer.py`): after processing sample i, if
`i & (_OVERSAMPLE - 1) == _OVERSAMPLE - 1` append `period / _OVERSAMPLE`
and reset the period sum. -/
def deqRunA (k : ℚ) : List ℚ → DeqState → Nat → List ℚ
  | [], _, _ => []
  | v :: vs, st, i =>
    let st' := deqStep k st v
    if i &&& (OVERSAMPLE - 1) = OVERSAMPLE - 1 then
      (st'.period / (OVERSAMPLE : ℚ)) ::
        deqRunA k vs ⟨st'.integrator, st'.integrator2, st'.integrator3, 0⟩ (i + 1)
    else
      deqRunA k vs st' (i + 1)

/-- `dequantize(signal)` of `quantizer.py`, with `k = k2 = k3 = 0.0253` and
all accumulators starting at 0. -/
def dequantize (signal : List ℚ) : List ℚ :=
  deqRunA (0.0253 : ℚ) signal ⟨0, 0, 0, 0⟩ 0

/-- The `for i, v in enumerate(signal)` loop of `dequantize_delta_sigma`
(`delta_sigma_quantizer.py`): after processing sample i, if
`not (i + 1) % _OVERSAMPLE` write `period / _OVERSAMPLE` into slot
`(i + 1) // _OVERSAMPLE - 1` of the preallocated result and reset the
period sum.  The writes hit slots `0, 1, 2, ...` of the
`len(signal) // _OVERSAMPLE`-element zero array exactly in order and fill
it completely, so the write pattern is modelled by emitting a list. -/
def deqRunB (k : ℚ) : List ℚ → DeqState → Nat → List ℚ
  | [], _, _ => []
  | v :: vs, st, i =>
    let st' := deqStep k st v
    if (i + 1) % OVERSAMPLE = 0 then
      (st'.period / (OVERSAMPLE : ℚ)) ::
        deqRunB k vs ⟨st'.integrator, st'.integrator2, st'.integrator3, 0⟩ (i + 1)
    else
      deqRunB k vs st' (i + 1)

/-- `dequantize_delta_sigma(signal)` of `delta_sigma_quantizer.py`, with
`k = k2 = k3 = 0.15` and all accumulators starting at 0. -/
def dequantize_delta_sigma (signal : List ℚ) : List ℚ :=
  deqRunB (0.15 : ℚ) signal ⟨0, 0, 0, 0⟩ 0

/-! ## Frequency reduction (`quantizer.py`, `reduce_frequency`) -/

/-- window_length = 32 in `reduce_frequency`. -/
def window_length : Nat := 32

/-- `target_length = -(-signal.size // window_length) * window_length` in
Python floor division, i.e. the size rounded up to the next multiple of
`window_length`. -/
def targetLength (n : Nat) : Nat :=
  ((n + (window_length - 1)) / window_length) * window_length

/-- Splitting a list into n consecutive windows of `window_length`
elements, as `padded_signal.reshape(-1, window_length)` does. -/
def chunkWindows : Nat → List ℚ → List (List ℚ)
  | 0, _ => []
  | n + 1, l => l.take window_length :: chunkWindows n (l.drop window_length)

/-- Number of low (`-bit15`) pulses in a window:
`(windowed_signal == -bit15).sum(axis=-1)` for one window. -/
def countLow (l : List ℚ) : Nat :=
  l.countP (fun v => v = -bit15)

/-- One output window of `reduce_frequency`:
`numpy.where(numpy.arange(window_length) < count_of_lows, -bit15, bit15)`. -/
def reduceWindow (w : List ℚ) : List ℚ :=
  (List.range window_length).map (fun j => if j < countLow w then -bit15 else bit15)

/-- `reduce_frequency(signal)` of `quantizer.py`: pad the signal with zeros
(`numpy.pad` pads with the constant 0) up to `targetLength`, split into
windows of `window_length`, rewrite each window with its low pulses first,
and flatten (`numpy.ravel`). -/
def reduce_frequency (signal : List ℚ) : List ℚ :=
  let padded_signal := signal ++ List.replicate (targetLength signal.length - signal.length) 0
  ((chunkWindows (targetLength signal.length / window_length) padded_signal).map
    reduceWindow).flatten

/-! ## RMSE (`rmse` of both source files) -/

/-- The numpy broadcast of `original - reproduction` on 1-D arrays: defined
when the lengths are equal or either length is 1 (the singleton is repeated);
any other length combination raises a broadcast `ValueError`, modelled as
`none`. -/
def broadcastSub (a b : List ℚ) : Option (List ℚ) :=
  if a.length = b.length then some (List.zipWith (fun x y => x - y) a b)
  else if b.length = 1 then some (a.map (fun x => x - b.headI))
  else if a.length = 1 then some (b.map (fun y => a.headI - y))
  else none

/-- Arithmetic mean, `numpy.mean` (on an empty list, division by zero in ℚ
yields 0 where numpy yields NaN; no claim depends on the empty mean). -/
def mean (l : List ℚ) : ℚ :=
  l.sum / (l.length : ℚ)

/-- `rmse(original, reproduction)` of both source files, modelled up to the
final `numpy.sqrt`: this embedding returns the mean of the squared
differences.  The square root is strictly monotone and `0 = sqrt 0`, so
every claim about `rmse` (definedness, equality of lengths, comparisons and
argmin of RMSE values) is preserved verbatim by this modelling; `sqrt`
itself has no exact computable representation on ℚ. -/
def rmse (original reproduction : List ℚ) : Option ℚ :=
  (broadcastSub original reproduction).map (fun d => mean (d.map (fun x => x ^ 2)))

/-! ## Offset search (`demo` of `quantizer.py`) -/

/-- `sys.float_info.max`, the initial `min_rmse` of the search loop in
`demo` (IEEE-754 double maximum, an exact rational). -/
def float_info_max : ℚ :=
  (2 ^ 53 - 1) * 2 ^ 971

/-- `numpy.roll(l, -offset)`: circular rotation to the left by `offset`
positions. -/
def roll (l : List ℚ) (offset : Nat) : List ℚ :=
  l.drop (offset % l.length) ++ l.take (offset % l.length)

/-- The `for offset in range(150)` loop of `demo`: for each offset compute
`rmse(data, dequantize(numpy.roll(result_quant, -offset)))` and keep the
strictly smallest value seen, with its offset.  A `none` from `rmse` models
the Python exception propagating out of the loop. -/
def searchLoop (data pulses : List ℚ) : List Nat → ℚ × Nat → Option (ℚ × Nat)
  | [], acc => some acc
  | offset :: rest, acc =>
    match rmse data (dequantize (roll pulses offset)) with
    | none => none
    | some curr =>
      if curr < acc.1 then searchLoop data pulses rest (curr, offset)
      else searchLoop data pulses rest acc

/-- The offset search of `demo`, starting from
`min_rmse = sys.float_info.max` and `min_offset = 0`. -/
def search_best_offset (data pulses : List ℚ) : Option (ℚ × Nat) :=
  searchLoop data pulses (List.range 150) (float_info_max, 0)

/-! ## Basic lemmas about the modulators -/

lemma qblock_length (n : Nat) (x : ℚ) : ∀ e, (qblock n x e).1.length = n := by
  induction n with
  | zero => intro e; simp [qblock]
  | succ n ih => intro e; simp [qblock, ih]

lemma qblock_mem (n : Nat) (x : ℚ) :
    ∀ e, ∀ y ∈ (qblock n x e).1, y = bit15 ∨ y = -bit15 := by
  induction n with
  | zero => intro e y hy; simp [qblock] at hy
  | succ n ih =>
    intro e y hy
    simp only [qblock, List.mem_cons] at hy
    rcases hy with hy | hy
    · subst hy; unfold qstep; dsimp only; split <;> simp
    · exact ih _ y hy

lemma qmain_length (s : List ℚ) : ∀ e, (qmain s e).length = OVERSAMPLE * (s.length - 1) := by
  induction s with
  | nil => intro e; simp [qmain]
  | cons a t ih =>
    intro e
    cases t with
    | nil => simp [qmain]
    | cons b r =>
      simp only [qmain, List.length_append, qblock_length, ih]
      simp [Nat.mul_sub, Nat.mul_add]
      omega

lemma qmain_mem (s : List ℚ) : ∀ e, ∀ y ∈ qmain s e, y = bit15 ∨ y = -bit15 := by
  induction s with
  | nil => intro e y hy; simp [qmain] at hy
  | cons a t ih =>
    intro e y hy
    cases t with
    | nil => simp [qmain] at hy
    | cons b r =>
      simp only [qmain, List.mem_append] at hy
      rcases hy with hy | hy
      · exact qblock_mem _ _ _ y hy
      · exact ih _ y hy

lemma dsRun_length (l : List ℚ) : ∀ st, (dsRun l st).length = l.length := by
  induction l with
  | nil => intro st; simp [dsRun]
  | cons x xs ih => intro st; simp [dsRun, ih]

lemma dsRun_mem (l : List ℚ) : ∀ st, ∀ y ∈ dsRun l st, y = bit15 ∨ y = -bit15 := by
  induction l with
  | nil => intro st y hy; simp [dsRun] at hy
  | cons x xs ih =>
    intro st y hy
    simp only [dsRun, List.mem_cons] at hy
    rcases hy with hy | hy
    · subst hy; unfold dsStep; dsimp only; split <;> simp
    · exact ih _ y hy

lemma signal_ovs_length (sig : List ℚ) : (signal_ovs sig).length = OVERSAMPLE * sig.length := by
  simp [signal_ovs]

lemma quantize_eq_some (s : List ℚ) (hs : s ≠ []) :
    quantize s = some (qmain s 0 ++
      List.replicate OVERSAMPLE (if s.getLast hs ≥ 0 then bit15 else -bit15)) := by
  unfold quantize
  rw [List.getLast?_eq_getLast s hs]

lemma quantize_delta_sigma_eq_some (s : List ℚ) (hs : s ≠ []) :
    quantize_delta_sigma s = some (dsRun (signal_ovs s) ⟨0, 0⟩) := by
  unfold quantize_delta_sigma
  rw [if_neg]
  simp [List.isEmpty_iff, hs]

/-- C1: for every input signal of length N ≥ 1, both modulator variants
return a pulse stream of length exactly N × OVERSAMPLE (= N × 32), and
every element of both streams is exactly +32768 or −32768. -/
theorem C1_pulse_length_and_fullscale (s : List ℚ) (h : 1 ≤ s.length) :
    ∃ l₁ l₂, quantize s = some l₁ ∧ quantize_delta_sigma s = some l₂ ∧
      l₁.length = s.length * 32 ∧ l₂.length = s.length * 32 ∧
      (∀ y ∈ l₁, y = 32768 ∨ y = -32768) ∧ (∀ y ∈ l₂, y = 32768 ∨ y = -32768) := by
  have hs : s ≠ [] := by
    intro hnil
    rw [hnil] at h
    simp at h
  refine ⟨_, _, quantize_eq_some s hs, quantize_delta_sigma_eq_some s hs, ?_, ?_, ?_, ?_⟩
  · rw [List.length_append, List.length_replicate, qmain_length]
    show OVERSAMPLE * (s.length - 1) + OVERSAMPLE = s.length * 32
    unfold OVERSAMPLE
    omega
  · rw [dsRun_length, signal_ovs_length]
    unfold OVERSAMPLE
    omega
  · intro y hy
    rw [List.mem_append] at hy
    rcases hy with hy | hy
    · exact qmain_mem s 0 y hy
    · have := List.eq_of_mem_replicate hy
      subst this
      split <;> simp [bit15]
  · intro y hy
    exact dsRun_mem _ _ y hy

/-- Witness for C1 at the one-sample signal [1]. -/
theorem C1_pulse_length_and_fullscale_witness :
    ∃ l₁ l₂, quantize [(1 : ℚ)] = some l₁ ∧ quantize_delta_sigma [(1 : ℚ)] = some l₂ ∧
      l₁.length = [(1 : ℚ)].length * 32 ∧ l₂.length = [(1 : ℚ)].length * 32 ∧
      (∀ y ∈ l₁, y = 32768 ∨ y = -32768) ∧ (∀ y ∈ l₂, y = 32768 ∨ y = -32768) :=
  C1_pulse_length_and_fullscale [(1 : ℚ)] (by decide)

/-! ## C2: characterisation of the second-order modulator loop -/

/-- The second-order modulator loop written exactly as the claim describes
it: carrying the two accumulators, for each sample x the decision reads the
value of integrator2 from before this step's updates (+bit15 when it is
strictly greater than 0, -bit15 otherwise, so a tie at 0 gives -bit15), the
pulse is appended, and then integrator becomes integrator + x - delta and
integrator2 becomes integrator2 - delta + (integrator + x - delta). -/
def dsRunSpec : List ℚ → ℚ → ℚ → List ℚ
  | [], _, _ => []
  | x :: xs, integrator, integrator2 =>
    let delta := if integrator2 > 0 then bit15 else -bit15
    delta :: dsRunSpec xs (integrator + x - delta)
      (integrator2 - delta + (integrator + x - delta))

lemma dsRun_eq_dsRunSpec (l : List ℚ) :
    ∀ a b, dsRun l ⟨a, b⟩ = dsRunSpec l a b := by
  induction l with
  | nil => intro a b; simp [dsRun, dsRunSpec]
  | cons x xs ih =>
    intro a b
    simp only [dsRun, dsRunSpec, dsStep]
    congr 1
    exact ih _ _

/-- C2: the second-order modulator processes each oversampled sample x by
integrator += x, then emits delta = +32768 exactly when the pre-update
integrator2 is strictly positive and -32768 otherwise (a tie at 0 gives
-32768), then updates integrator -= delta, integrator2 -= delta,
integrator2 += integrator in that order: the whole run equals the
step-by-step recursion `dsRunSpec` that uses the pre-update integrator2
for every decision, started from two zero accumulators. -/
theorem C2_second_order_step_semantics (sig : List ℚ) (h : sig ≠ []) :
    ∃ l, quantize_delta_sigma sig = some l ∧ l = dsRunSpec (signal_ovs sig) 0 0 :=
  ⟨_, quantize_delta_sigma_eq_some sig h, dsRun_eq_dsRunSpec _ 0 0⟩

/-- Witness for C2 at the one-sample signal [1]. -/
theorem C2_second_order_step_semantics_witness :
    ∃ l, quantize_delta_sigma [(1 : ℚ)] = some l ∧ l = dsRunSpec (signal_ovs [(1 : ℚ)]) 0 0 :=
  C2_second_order_step_semantics [(1 : ℚ)] (by decide)

/-! ## C3: characterisation of the first-order modulator loop -/

/-- The first-order modulator main loop written as the claim describes it:
for each consecutive input pair (s[i], s[i+1]) — given here as the zip of
the signal with its tail — compute the extrapolated value 3*s[i] - 2*s[i+1]
once and feed that same value through OVERSAMPLE iterations of the
error-feedback recurrence `inp = x + error; out = bit15 if inp >= 0 else
-bit15; error = inp - out`, carrying the error into the next pair's block. -/
def qmainSpec : List (ℚ × ℚ) → ℚ → List ℚ
  | [], _ => []
  | p :: ps, error =>
    let blk := qblock OVERSAMPLE (3 * p.1 - 2 * p.2) error
    blk.1 ++ qmainSpec ps blk.2

lemma qmain_eq_qmainSpec (s : List ℚ) :
    ∀ e, qmain s e = qmainSpec (s.zip s.tail) e := by
  induction s with
  | nil => intro e; simp [qmain, qmainSpec]
  | cons a t ih =>
    intro e
    cases t with
    | nil => simp [qmain, qmainSpec]
    | cons b r =>
      simp only [qmain, List.tail_cons, List.zip_cons_cons, qmainSpec]
      rw [ih]
      rfl

/-- C3: the first-order modulator computes, for every consecutive input
pair (s[i], s[i+1]), the extrapolated value 3*s[i] - 2*s[i+1] once and
feeds it through 32 iterations of the error-feedback recurrence (tie at 0
gives +32768), with the error starting at 0 and carried across blocks for
all but the final block; the final block repeats the sign pulse of the last
sample 32 times. -/
theorem C3_first_order_extrapolation (s : List ℚ) (last : ℚ)
    (h : s.getLast? = some last) :
    quantize s = some (qmainSpec (s.zip s.tail) 0 ++
      List.replicate 32 (if last ≥ 0 then bit15 else -bit15)) := by
  have hs : s ≠ [] := by
    intro hnil
    rw [hnil] at h
    simp at h
  rw [quantize_eq_some s hs, qmain_eq_qmainSpec]
  have : s.getLast hs = last := by
    rw [List.getLast?_eq_getLast s hs] at h
    exact (Option.some_injective _ h)
  rw [this]
  rfl

/-- Witness for C3 at the two-sample signal [1, -2]. -/
theorem C3_first_order_extrapolation_witness :
    quantize [(1 : ℚ), -2] = some (qmainSpec ([(1 : ℚ), -2].zip [(1 : ℚ), -2].tail) 0 ++
      List.replicate 32 (if (-2 : ℚ) ≥ 0 then bit15 else -bit15)) :=
  C3_first_order_extrapolation [(1 : ℚ), -2] (-2) (by decide)

/-! ## C4: characterisation of the demodulators -/

/-- The demodulation loop written exactly as the claim describes it:
starting from three zero accumulators, per incoming pulse v apply the
cascade y1 = y1*(1-k) + k*v; y2 = y2*(1-k) + k*y1; y3 = y3*(1-k) + k*y2,
accumulate y3 into a running period sum, and after every 32 consumed
pulses (counter c) emit period/32 and reset the period sum. -/
def deqSpecRun (k : ℚ) : List ℚ → ℚ → ℚ → ℚ → ℚ → Nat → List ℚ
  | [], _, _, _, _, _ => []
  | v :: vs, y1, y2, y3, period, c =>
    let z1 := y1 * (1 - k) + k * v
    let z2 := y2 * (1 - k) + k * z1
    let z3 := y3 * (1 - k) + k * z2
    if c + 1 = 32 then
      (period + z3) / 32 :: deqSpecRun k vs z1 z2 z3 0 0
    else
      deqSpecRun k vs z1 z2 z3 (period + z3) (c + 1)

/-- The claim's demodulator on a whole pulse stream: zero state, counter 0. -/
def deqSpec (k : ℚ) (pulses : List ℚ) : List ℚ :=
  deqSpecRun k pulses 0 0 0 0 0

lemma land_31 (i : Nat) : i &&& 31 = i % 32 := by
  have h := Nat.and_pow_two_sub_one_eq_mod i 5
  norm_num at h
  exact h

lemma deqRunA_eq_spec (k : ℚ) (l : List ℚ) :
    ∀ y1 y2 y3 p i, deqRunA k l ⟨y1, y2, y3, p⟩ i = deqSpecRun k l y1 y2 y3 p (i % 32) := by
  induction l with
  | nil => intro y1 y2 y3 p i; simp [deqRunA, deqSpecRun]
  | cons v vs ih =>
    intro y1 y2 y3 p i
    show (if i &&& (OVERSAMPLE - 1) = OVERSAMPLE - 1 then _ else _) = _
    rw [show OVERSAMPLE - 1 = 31 from rfl, land_31]
    by_cases hc : i % 32 = 31
    · rw [if_pos hc]
      show _ = (if i % 32 + 1 = 32 then _ else _)
      rw [if_pos (by omega : i % 32 + 1 = 32)]
      have h0 : (i + 1) % 32 = 0 := by omega
      rw [ih, h0]
      rfl
    · rw [if_neg hc]
      show _ = (if i % 32 + 1 = 32 then _ else _)
      rw [if_neg (by omega : ¬i % 32 + 1 = 32)]
      have h1 : (i + 1) % 32 = i % 32 + 1 := by omega
      rw [ih, h1]
      rfl

lemma deqRunB_eq_spec (k : ℚ) (l : List ℚ) :
    ∀ y1 y2 y3 p i, deqRunB k l ⟨y1, y2, y3, p⟩ i = deqSpecRun k l y1 y2 y3 p (i % 32) := by
  induction l with
  | nil => intro y1 y2 y3 p i; simp [deqRunB, deqSpecRun]
  | cons v vs ih =>
    intro y1 y2 y3 p i
    show (if (i + 1) % OVERSAMPLE = 0 then _ else _) = _
    rw [show OVERSAMPLE = 32 from rfl]
    by_cases hc : i % 32 = 31
    · rw [if_pos (by omega : (i + 1) % 32 = 0)]
      show _ = (if i % 32 + 1 = 32 then _ else _)
      rw [if_pos (by omega : i % 32 + 1 = 32)]
      have h0 : (i + 1) % 32 = 0 := by omega
      rw [ih, h0]
      rfl
    · rw [if_neg (by omega : ¬(i + 1) % 32 = 0)]
      show _ = (if i % 32 + 1 = 32 then _ else _)
      rw [if_neg (by omega : ¬i % 32 + 1 = 32)]
      have h1 : (i + 1) % 32 = i % 32 + 1 := by omega
      rw [ih, h1]
      rfl

lemma deqSpecRun_length (k : ℚ) (l : List ℚ) :
    ∀ y1 y2 y3 p c, c < 32 → (deqSpecRun k l y1 y2 y3 p c).length = (c + l.length) / 32 := by
  induction l with
  | nil =>
    intro y1 y2 y3 p c hc
    simp only [deqSpecRun, List.length_nil]
    omega
  | cons v vs ih =>
    intro y1 y2 y3 p c hc
    simp only [deqSpecRun]
    split
    · rw [List.length_cons, ih _ _ _ _ 0 (by omega)]
      simp only [List.length_cons]
      omega
    · rw [ih _ _ _ _ (c + 1) (by omega)]
      simp only [List.length_cons]
      omega

/-- C4: both demodulators, starting from three zero accumulators, apply per
incoming pulse the three-stage leaky-integrator cascade, accumulate the
third stage into a running period sum, and after every 32 consumed pulses
emit period/32 and reset it (with k = 0.0253 for `dequantize` and k = 0.15
for `dequantize_delta_sigma`); consequently the output length is exactly
⌊len(pulses)/32⌋, with remainder pulses past the last full block dropped. -/
theorem C4_demodulator_cascade_and_length (pulses : List ℚ) :
    dequantize pulses = deqSpec (0.0253 : ℚ) pulses ∧
    dequantize_delta_sigma pulses = deqSpec (0.15 : ℚ) pulses ∧
    (dequantize pulses).length = pulses.length / 32 ∧
    (dequantize_delta_sigma pulses).length = pulses.length / 32 := by
  have hA : dequantize pulses = deqSpec (0.0253 : ℚ) pulses := by
    unfold dequantize deqSpec
    rw [deqRunA_eq_spec]
  have hB : dequantize_delta_sigma pulses = deqSpec (0.15 : ℚ) pulses := by
    unfold dequantize_delta_sigma deqSpec
    rw [deqRunB_eq_spec]
  refine ⟨hA, hB, ?_, ?_⟩
  · rw [hA]
    unfold deqSpec
    rw [deqSpecRun_length _ _ _ _ _ _ _ (by omega)]
    omega
  · rw [hB]
    unfold deqSpec
    rw [deqSpecRun_length _ _ _ _ _ _ _ (by omega)]
    omega

/-! ## C5 / C7: counting lemmas for `reduce_frequency` -/

/-- Number of high (`bit15`) pulses in a list. -/
def countHigh (l : List ℚ) : Nat :=
  l.countP (fun v => v = bit15)

lemma countLow_append (a b : List ℚ) : countLow (a ++ b) = countLow a + countLow b :=
  List.countP_append _ _ _

lemma countHigh_append (a b : List ℚ) : countHigh (a ++ b) = countHigh a + countHigh b :=
  List.countP_append _ _ _

lemma low_count_range (c n : Nat) :
    countLow ((List.range n).map fun j => if j < c then -bit15 else bit15) = min c n := by
  induction n with
  | zero => simp [countLow]
  | succ n ih =>
    rw [List.range_succ, List.map_append, countLow_append, ih]
    by_cases h : n < c
    · rw [List.map_cons, List.map_nil, if_pos h]
      have h1 : countLow [-bit15] = 1 := by decide
      rw [h1]
      omega
    · rw [List.map_cons, List.map_nil, if_neg h]
      have h0 : countLow [bit15] = 0 := by decide
      rw [h0]
      omega

lemma high_count_range (c n : Nat) :
    countHigh ((List.range n).map fun j => if j < c then -bit15 else bit15) = n - min c n := by
  induction n with
  | zero => simp [countHigh]
  | succ n ih =>
    rw [List.range_succ, List.map_append, countHigh_append, ih]
    by_cases h : n < c
    · rw [List.map_cons, List.map_nil, if_pos h]
      have h1 : countHigh [-bit15] = 0 := by decide
      rw [h1]
      omega
    · rw [List.map_cons, List.map_nil, if_neg h]
      have h0 : countHigh [bit15] = 1 := by decide
      rw [h0]
      omega

lemma reduceWindow_length (w : List ℚ) : (reduceWindow w).length = 32 := by
  simp [reduceWindow, window_length]

lemma countLow_reduceWindow (w : List ℚ) (h : countLow w ≤ 32) :
    countLow (reduceWindow w) = countLow w := by
  unfold reduceWindow
  rw [show window_length = 32 from rfl, low_count_range]
  omega

lemma countHigh_reduceWindow (w : List ℚ) (h : countLow w ≤ 32) :
    countHigh (reduceWindow w) = 32 - countLow w := by
  unfold reduceWindow
  rw [show window_length = 32 from rfl, high_count_range]
  omega

lemma countLow_le_length (l : List ℚ) : countLow l ≤ l.length :=
  List.countP_le_length _

lemma reduced_length (n : Nat) :
    ∀ l : List ℚ, (((chunkWindows n l).map reduceWindow).flatten).length = 32 * n := by
  induction n with
  | zero => intro l; simp [chunkWindows]
  | succ n ih =>
    intro l
    rw [chunkWindows, List.map_cons, List.flatten_cons, List.length_append,
      reduceWindow_length, ih]
    omega

lemma reduced_countLow (n : Nat) :
    ∀ l : List ℚ, l.length ≤ 32 * n →
      countLow (((chunkWindows n l).map reduceWindow).flatten) = countLow l := by
  induction n with
  | zero =>
    intro l h
    have : l = [] := List.length_eq_zero.mp (by omega)
    subst this
    simp [chunkWindows, countLow]
  | succ n ih =>
    intro l h
    rw [chunkWindows, List.map_cons, List.flatten_cons, countLow_append]
    have htake : countLow (l.take window_length) ≤ 32 := by
      have := countLow_le_length (l.take window_length)
      have := List.length_take_le window_length l
      rw [show window_length = 32 from rfl] at *
      omega
    rw [countLow_reduceWindow _ htake, ih (l.drop window_length) ?hlen]
    case hlen =>
      rw [List.length_drop, show window_length = 32 from rfl]
      omega
    conv_rhs => rw [← List.take_append_drop window_length l, countLow_append]

lemma reduced_countHigh (n : Nat) :
    ∀ l : List ℚ, l.length ≤ 32 * n →
      countHigh (((chunkWindows n l).map reduceWindow).flatten) = 32 * n - countLow l := by
  induction n with
  | zero =>
    intro l h
    have : l = [] := List.length_eq_zero.mp (by omega)
    subst this
    simp [chunkWindows, countHigh, countLow]
  | succ n ih =>
    intro l h
    rw [chunkWindows, List.map_cons, List.flatten_cons, countHigh_append]
    have htake : countLow (l.take window_length) ≤ 32 := by
      have := countLow_le_length (l.take window_length)
      have := List.length_take_le window_length l
      rw [show window_length = 32 from rfl] at *
      omega
    rw [countHigh_reduceWindow _ htake, ih (l.drop window_length) ?hlen]
    case hlen =>
      rw [List.length_drop, show window_length = 32 from rfl]
      omega
    have hsplit : countLow l = countLow (l.take window_length) + countLow (l.drop window_length) := by
      conv_lhs => rw [← List.take_append_drop window_length l]
      exact countLow_append _ _
    have hdrop : countLow (l.drop window_length) ≤ 32 * n := by
      have h1 := countLow_le_length (l.drop window_length)
      have h2 : (l.drop window_length).length = l.length - window_length := List.length_drop _ _
      have h3 : window_length = 32 := rfl
      omega
    omega

/-- C5: for every window W of 32 pulses each equal to ±32768,
`reduce_frequency` maps W to the window whose first c positions are −32768
and whose remaining 32 − c positions are +32768, where c is the number of
−32768 elements of W; in particular the per-window count of low pulses is
exactly preserved. -/
theorem C5_window_regroup (W : List ℚ) (h32 : W.length = 32)
    (hvals : ∀ x ∈ W, x = 32768 ∨ x = -32768) :
    reduce_frequency W = (List.range 32).map
      (fun j => if j < countLow W then (-32768 : ℚ) else 32768) ∧
    countLow (reduce_frequency W) = countLow W := by
  have htarget : targetLength W.length = 32 := by
    rw [h32]
    rfl
  have hpad : List.replicate (targetLength W.length - W.length) (0 : ℚ) = [] := by
    rw [htarget, h32]
    rfl
  have hred : reduce_frequency W = reduceWindow W := by
    unfold reduce_frequency
    dsimp only
    rw [hpad, List.append_nil, htarget]
    rw [show (32 / window_length : Nat) = 1 from rfl]
    have h2 : chunkWindows 1 W = [W.take window_length] := rfl
    rw [h2, List.map_cons, List.map_nil, List.flatten_cons, List.flatten_nil, List.append_nil]
    rw [List.take_of_length_le (by rw [h32]; exact Nat.le_refl 32)]
  constructor
  · rw [hred]
    rfl
  · rw [hred, countLow_reduceWindow]
    rw [← h32]
    exact countLow_le_length W

/-- Witness for C5 at a concrete window of 16 high and 16 low pulses. -/
theorem C5_window_regroup_witness :
    reduce_frequency (List.replicate 16 (32768 : ℚ) ++ List.replicate 16 (-32768 : ℚ)) =
      (List.range 32).map (fun j =>
        if j < countLow (List.replicate 16 (32768 : ℚ) ++ List.replicate 16 (-32768 : ℚ))
        then (-32768 : ℚ) else 32768) ∧
    countLow (reduce_frequency (List.replicate 16 (32768 : ℚ) ++ List.replicate 16 (-32768 : ℚ))) =
      countLow (List.replicate 16 (32768 : ℚ) ++ List.replicate 16 (-32768 : ℚ)) :=
  C5_window_regroup _ (by decide) (by decide)

/-! ## C6: behaviour on the empty input signal -/

/-- C6 counterexample: the claim says every core function accepts the empty
signal without raising; in fact both modulator variants fail on the empty
signal (`quantize` indexes `signal[len(signal) - 1]`, an `IndexError`, and
`quantize_delta_sigma` calls `numpy.interp` with an empty sample-point
array, a `ValueError`), modelled here by `none`. -/
theorem C6_empty_counterexample :
    quantize ([] : List ℚ) = none ∧ quantize_delta_sigma ([] : List ℚ) = none :=
  ⟨rfl, rfl⟩

/-- C6 amended: the demodulators and `reduce_frequency` accept the empty
input and return an empty output, but both modulator variants fail on the
empty signal instead of returning an empty pulse stream. -/
theorem C6_empty_amended :
    dequantize [] = [] ∧ dequantize_delta_sigma [] = [] ∧
    reduce_frequency [] = [] ∧
    quantize ([] : List ℚ) = none ∧ quantize_delta_sigma ([] : List ℚ) = none :=
  ⟨rfl, rfl, rfl, rfl, rfl⟩

/-! ## C7: padding behaviour of `reduce_frequency` -/

/-- C7 counterexample: on the one-element stream [−32768] the final window
is padded with 31 zeros; the claim predicts the padded positions appear as
low pulses (so the output window would be 32 copies of −32768, the low
count of the padded window being 32), but the code pads with the value 0,
which is not counted by `(window == -bit15).sum`, so the output is one low
pulse followed by 31 high pulses — e.g. padded position 5 holds +32768. -/
theorem C7_padding_counterexample :
    reduce_frequency [(-32768 : ℚ)] = (-32768 : ℚ) :: List.replicate 31 (32768 : ℚ) ∧
    (reduce_frequency [(-32768 : ℚ)])[5]? = some (32768 : ℚ) ∧
    reduce_frequency [(-32768 : ℚ)] ≠ List.replicate 32 (-32768 : ℚ) := by
  refine ⟨by decide, by decide, ?_⟩
  intro h
  have : ((-32768 : ℚ) :: List.replicate 31 (32768 : ℚ)) = List.replicate 32 (-32768 : ℚ) := by
    rw [← h]
    decide
  exact absurd this (by decide)

/-- C7 amended: when the stream length is not a multiple of 32,
`reduce_frequency` pads the final partial window with zero-valued samples
up to the next multiple of 32, so the output length is the smallest
multiple of 32 that is ≥ the input length; the padded zeros match neither
pulse polarity and are not counted as low pulses, so the per-window low
count is that of the unpadded elements and the padded positions surface as
high pulses: the output has exactly `countLow s` low pulses and all of its
remaining positions (including those arising from padding) are high. -/
theorem C7_padding_amended (s : List ℚ) :
    (reduce_frequency s).length = ((s.length + 31) / 32) * 32 ∧
    countLow (reduce_frequency s) = countLow s ∧
    countHigh (reduce_frequency s) = ((s.length + 31) / 32) * 32 - countLow s := by
  have hlen : (s ++ List.replicate (targetLength s.length - s.length) (0 : ℚ)).length =
      32 * (targetLength s.length / window_length) := by
    rw [List.length_append, List.length_replicate]
    unfold targetLength window_length
    omega
  have hclow : countLow (s ++ List.replicate (targetLength s.length - s.length) (0 : ℚ)) =
      countLow s := by
    rw [countLow_append]
    have : countLow (List.replicate (targetLength s.length - s.length) (0 : ℚ)) = 0 := by
      rw [countLow, List.countP_eq_zero]
      intro a ha
      have := List.eq_of_mem_replicate ha
      subst this
      decide
    omega
  refine ⟨?_, ?_, ?_⟩
  · unfold reduce_frequency
    rw [reduced_length]
    unfold targetLength window_length
    omega
  · unfold reduce_frequency
    rw [reduced_countLow _ _ (le_of_eq hlen), hclow]
  · unfold reduce_frequency
    rw [reduced_countHigh _ _ (le_of_eq hlen), hclow]
    unfold targetLength window_length
    omega

/-! ## C8: length handling of `rmse` -/

/-- C8 counterexample: the claim says `rmse` fails on every pair of
different-length inputs; in fact numpy broadcasting makes a length-1 input
compare against every element of the other, so `rmse([1], [0, 0])`
returns a value (mean-square 1, RMSE 1) instead of failing. -/
theorem C8_rmse_counterexample :
    ([(1 : ℚ)].length ≠ [(0 : ℚ), 0].length) ∧ rmse [(1 : ℚ)] [0, 0] = some 1 := by
  constructor
  · decide
  · norm_num [rmse, broadcastSub, mean]

/-- C8 amended: `rmse` fails with a broadcast length-mismatch error
whenever the two lengths differ and neither input has length 1; an input
of length exactly 1 is broadcast against the other (still no truncation —
the longer input is never silently cut to the shorter length). -/
theorem C8_rmse_amended (a b : List ℚ) (hne : a.length ≠ b.length)
    (ha : a.length ≠ 1) (hb : b.length ≠ 1) : rmse a b = none := by
  unfold rmse broadcastSub
  rw [if_neg hne, if_neg hb, if_neg ha]
  rfl

/-- Witness for the amended C8 at lengths 2 and 3. -/
theorem C8_rmse_amended_witness : rmse [(1 : ℚ), 2] [1, 2, 3] = none :=
  C8_rmse_amended [(1 : ℚ), 2] [1, 2, 3] (by decide) (by decide) (by decide)

/-! ## C9: the offset search of `demo` -/

lemma searchLoop_min_le (data pulses : List ℚ) :
    ∀ (os : List Nat) (acc res : ℚ × Nat),
      searchLoop data pulses os acc = some res →
      res.1 ≤ acc.1 ∧
        ∀ o ∈ os, ∀ r, rmse data (dequantize (roll pulses o)) = some r → res.1 ≤ r := by
  intro os
  induction os with
  | nil =>
    intro acc res h
    have : acc = res := by
      unfold searchLoop at h
      exact Option.some.inj h
    subst this
    exact ⟨le_refl _, by simp⟩
  | cons o os ih =>
    intro acc res h
    rw [searchLoop] at h
    split at h
    · exact absurd h (by simp)
    · rename_i curr hr
      split at h
      · rename_i hlt
        obtain ⟨h1, h2⟩ := ih (curr, o) res h
        refine ⟨le_trans h1 (le_of_lt hlt), ?_⟩
        intro o' ho' r hrr
        rcases List.mem_cons.mp ho' with he | hm
        · subst he
          rw [hr] at hrr
          have : curr = r := Option.some.inj hrr
          subst this
          exact h1
        · exact h2 o' hm r hrr
      · rename_i hlt
        obtain ⟨h1, h2⟩ := ih acc res h
        refine ⟨h1, ?_⟩
        intro o' ho' r hrr
        rcases List.mem_cons.mp ho' with he | hm
        · subst he
          rw [hr] at hrr
          have : curr = r := Option.some.inj hrr
          subst this
          exact le_trans h1 (le_of_not_lt hlt)
        · exact h2 o' hm r hrr

lemma searchLoop_attains (data pulses : List ℚ) :
    ∀ (os : List Nat) (acc res : ℚ × Nat),
      searchLoop data pulses os acc = some res →
      res = acc ∨ rmse data (dequantize (roll pulses res.2)) = some res.1 := by
  intro os
  induction os with
  | nil =>
    intro acc res h
    left
    unfold searchLoop at h
    exact (Option.some.inj h).symm
  | cons o os ih =>
    intro acc res h
    rw [searchLoop] at h
    split at h
    · exact absurd h (by simp)
    · rename_i curr hr
      split at h
      · rcases ih (curr, o) res h with he | hat
        · right
          rw [he]
          exact hr
        · right
          exact hat
      · exact ih acc res h

/-- C9: when the offset search of `demo` completes, the minimum RMSE it
returns is never greater than the RMSE at offset 0 over the same
demodulation path, and the returned offset attains that minimum RMSE
(stated over the mean-square values; the final square root is strictly
monotone, so all comparisons and the argmin coincide).  The hypothesis
`r0 < float_info_max` says the offset-0 RMSE is below the initial
`sys.float_info.max` sentinel, which holds for every input representable
in floating point. -/
theorem C9_offset_search (data pulses : List ℚ) (res : ℚ × Nat) (r0 : ℚ)
    (hs : search_best_offset data pulses = some res)
    (h0 : rmse data (dequantize (roll pulses 0)) = some r0)
    (hmax : r0 < float_info_max) :
    res.1 ≤ r0 ∧ rmse data (dequantize (roll pulses res.2)) = some res.1 := by
  unfold search_best_offset at hs
  obtain ⟨h1, h2⟩ := searchLoop_min_le data pulses _ _ _ hs
  have hle : res.1 ≤ r0 := h2 0 (List.mem_range.mpr (by omega)) r0 h0
  refine ⟨hle, ?_⟩
  rcases searchLoop_attains data pulses _ _ _ hs with hacc | hat
  · exfalso
    rw [hacc] at hle
    exact absurd hle (not_le.mpr hmax)
  · exact hat

lemma rmse_empty_data (o : Nat) : rmse [] (dequantize (roll [] o)) = some 0 := by
  have h1 : roll [] o = [] := by simp [roll]
  rw [h1]
  have h2 : dequantize [] = [] := rfl
  rw [h2]
  simp [rmse, broadcastSub, mean]

lemma searchLoop_empty_data (os : List Nat) :
    searchLoop [] [] os ((0 : ℚ), (0 : Nat)) = some ((0 : ℚ), (0 : Nat)) := by
  induction os with
  | nil => rfl
  | cons o os ih =>
    rw [searchLoop, rmse_empty_data]
    dsimp only
    rw [if_neg (lt_irrefl (0 : ℚ))]
    exact ih

lemma search_best_offset_empty : search_best_offset [] [] = some ((0 : ℚ), (0 : Nat)) := by
  unfold search_best_offset
  rw [List.range_succ_eq_map, searchLoop, rmse_empty_data]
  dsimp only
  rw [if_pos (by norm_num [float_info_max] : (0 : ℚ) < float_info_max)]
  exact searchLoop_empty_data _

/-- Witness for C9 on the empty signal and empty pulse stream, where every
offset demodulates to the empty list and every RMSE is 0. -/
theorem C9_offset_search_witness :
    (((0 : ℚ), (0 : Nat)).1 ≤ 0 ∧
      rmse [] (dequantize (roll [] ((0 : ℚ), (0 : Nat)).2)) = some ((0 : ℚ), (0 : Nat)).1) :=
  C9_offset_search [] [] ((0 : ℚ), (0 : Nat)) 0 search_best_offset_empty
    (rmse_empty_data 0) (by norm_num [float_info_max])

/-! ## C10: the final block of the first-order modulator -/

/-- C10: for every non-empty input signal, the first-order modulator's
final block of 32 pulses consists of 32 identical values, +32768 if the
last input sample is ≥ 0 and −32768 otherwise; the error accumulated over
the preceding blocks does not influence this block (its value depends only
on the last sample). -/
theorem C10_final_block (s : List ℚ) (last : ℚ) (l : List ℚ)
    (hlast : s.getLast? = some last) (hq : quantize s = some l) :
    l.drop (32 * (s.length - 1)) =
      List.replicate 32 (if last ≥ 0 then (32768 : ℚ) else -32768) := by
  have hs : s ≠ [] := by
    intro h
    rw [h] at hlast
    simp at hlast
  rw [quantize_eq_some s hs] at hq
  have hlast' : s.getLast hs = last := by
    rw [List.getLast?_eq_getLast s hs] at hlast
    exact Option.some.inj hlast
  rw [hlast'] at hq
  have hl := (Option.some.inj hq).symm
  rw [hl]
  exact List.drop_left' (by rw [qmain_length]; rfl)

/-- Witness for C10 at the one-sample signal [1]. -/
theorem C10_final_block_witness :
    (List.replicate 32 (32768 : ℚ)).drop (32 * (([(1 : ℚ)]).length - 1)) =
      List.replicate 32 (if (1 : ℚ) ≥ 0 then (32768 : ℚ) else -32768) :=
  C10_final_block [(1 : ℚ)] 1 (List.replicate 32 (32768 : ℚ)) (by decide) (by decide)

end ClassD
